/-
Verification of the accounting ledger engine (src/script.js).

The document persisted in the store is embedded as a `Doc` value; JS objects
keyed by strings become association lists preserving insertion order, JS
numbers become `Rat` (a parse that yields NaN becomes `Option.none`), and each
DOM event handler becomes a pure function from the old document (plus its form
inputs and the current date string) to the new document.

Rational arithmetic is written with `radd`/`rsub`/`rmul` (plain `mkRat`
formulas, proved equal to `+`/`-`/`*` below) and string utilities with
`strTrim`/`strToLower`/`strLe`, so that every definition evaluates by kernel
reduction on concrete inputs; the library versions are either `@[irreducible]`
or defined by well-founded recursion, which the kernel cannot unfold.
-/
import Mathlib

set_option autoImplicit false

namespace Accounting

/-- Rational addition, kernel-computable. -/
def radd (a b : Rat) : Rat :=
  mkRat (a.num * b.den + b.num * a.den) (a.den * b.den)

/-- Rational subtraction, kernel-computable. -/
def rsub (a b : Rat) : Rat :=
  mkRat (a.num * b.den - b.num * a.den) (a.den * b.den)

/-- Rational multiplication, kernel-computable. -/
def rmul (a b : Rat) : Rat :=
  mkRat (a.num * b.num) (a.den * b.den)

theorem radd_eq (a b : Rat) : radd a b = a + b := by
  have ha : ((a.den : Rat)) ≠ 0 := by exact_mod_cast a.den_nz
  have hb : ((b.den : Rat)) ≠ 0 := by exact_mod_cast b.den_nz
  rw [radd, Rat.mkRat_eq_div, eq_comm]
  conv_lhs => rw [← Rat.num_div_den a, ← Rat.num_div_den b]
  rw [div_add_div _ _ ha hb]
  push_cast
  ring_nf

theorem rsub_eq (a b : Rat) : rsub a b = a - b := by
  have ha : ((a.den : Rat)) ≠ 0 := by exact_mod_cast a.den_nz
  have hb : ((b.den : Rat)) ≠ 0 := by exact_mod_cast b.den_nz
  rw [rsub, Rat.mkRat_eq_div, eq_comm]
  conv_lhs => rw [← Rat.num_div_den a, ← Rat.num_div_den b]
  rw [div_sub_div _ _ ha hb]
  push_cast
  ring_nf

theorem rmul_eq (a b : Rat) : rmul a b = a * b := by
  rw [rmul, Rat.mkRat_eq_div, eq_comm]
  conv_lhs => rw [← Rat.num_div_den a, ← Rat.num_div_den b]
  rw [div_mul_div_comm]
  push_cast
  ring_nf

/-- Lexicographic comparison of character lists by code point, the order
`localeCompare` induces on the date strings used here. -/
def charsLe : List Char → List Char → Bool
  | [], _ => true
  | _ :: _, [] => false
  | a :: as, b :: bs =>
    if a.toNat < b.toNat then true
    else if b.toNat < a.toNat then false
    else charsLe as bs

/-- String comparison used to sort price-history entries by date. -/
def strLe (a b : String) : Bool :=
  charsLe a.data b.data

theorem charsLe_total : ∀ x y : List Char, charsLe x y = true ∨ charsLe y x = true := by
  intro x
  induction x with
  | nil => intro y; left; rfl
  | cons a as ih =>
    intro y
    cases y with
    | nil => right; rfl
    | cons b bs =>
      by_cases h₁ : a.toNat < b.toNat
      · left; simp [charsLe, h₁]
      · by_cases h₂ : b.toNat < a.toNat
        · right; simp [charsLe, h₂]
        · rcases ih bs with h | h
          · left; simp [charsLe, h₁, h₂, h]
          · right; simp [charsLe, h₁, h₂, h]

theorem charsLe_trans : ∀ x y z : List Char,
    charsLe x y = true → charsLe y z = true → charsLe x z = true := by
  intro x
  induction x with
  | nil => intro y z _ _; rfl
  | cons a as ih =>
    intro y z hxy hyz
    cases y with
    | nil => simp [charsLe] at hxy
    | cons b bs =>
      cases z with
      | nil => simp [charsLe] at hyz
      | cons c cs =>
        simp only [charsLe] at hxy hyz ⊢
        by_cases h₁ : a.toNat < b.toNat
        · by_cases h₂ : b.toNat < c.toNat
          · have : a.toNat < c.toNat := Nat.lt_trans h₁ h₂
            simp [this]
          · by_cases h₃ : c.toNat < b.toNat
            · simp [h₂, h₃] at hyz
            · have hbc : b.toNat = c.toNat := Nat.le_antisymm (Nat.le_of_not_lt h₃) (Nat.le_of_not_lt h₂)
              have : a.toNat < c.toNat := hbc ▸ h₁
              simp [this]
        · by_cases h₄ : b.toNat < a.toNat
          · simp [h₁, h₄] at hxy
          · have hab : a.toNat = b.toNat := Nat.le_antisymm (Nat.le_of_not_lt h₄) (Nat.le_of_not_lt h₁)
            by_cases h₂ : b.toNat < c.toNat
            · have : a.toNat < c.toNat := hab ▸ h₂
              simp [this]
            · by_cases h₃ : c.toNat < b.toNat
              · simp [h₂, h₃] at hyz
              · have hbc : b.toNat = c.toNat := Nat.le_antisymm (Nat.le_of_not_lt h₃) (Nat.le_of_not_lt h₂)
                have hac : a.toNat = c.toNat := hab.trans hbc
                have h₅ : ¬ a.toNat < c.toNat := by omega
                have h₆ : ¬ c.toNat < a.toNat := by omega
                simp [h₁, h₄] at hxy
                simp [h₂, h₃] at hyz
                simp [h₅, h₆]
                exact ih bs cs hxy hyz

/-- Whitespace-trimming on the underlying character list (`String.trim`). -/
def strTrim (s : String) : String :=
  ⟨((s.data.dropWhile Char.isWhitespace).reverse.dropWhile Char.isWhitespace).reverse⟩

/-- ASCII-style lower-casing (`String.toLowerCase`). -/
def strToLower (s : String) : String :=
  ⟨s.data.map Char.toLower⟩

/-- One price-history entry `{price, date}`. -/
structure PriceEntry where
  price : Rat
  date : String
deriving DecidableEq, Repr

/-- One quantity-audit entry `{month, date, delta, source}`. -/
structure QtyEntry where
  month : String
  date : String
  delta : Int
  src : String
deriving DecidableEq, Repr

/-- An item record: display name, price history, per-month quantities and
the quantity audit log. -/
structure Item where
  name : String
  priceHistory : List PriceEntry
  quantities : List (String × Int)
  qtyHistory : List QtyEntry
deriving DecidableEq, Repr

/-- A sale record as pushed by the sale-form handler. -/
structure Sale where
  date : String
  buyer : String
  address : String
  contact : String
  item : String
  price : Rat
  qty : Int
  total : Rat
  profit : Rat
  profitIsManual : Bool
deriving DecidableEq, Repr

/-- A monthly snapshot `{generatedAt, itemsTotal, salesTotal, salesProfit, salesCount}`. -/
structure Snapshot where
  generatedAt : String
  itemsTotal : Rat
  salesTotal : Rat
  salesProfit : Rat
  salesCount : Nat
deriving DecidableEq, Repr

/-- The whole persisted document. -/
structure Doc where
  items : List (String × Item)
  sales : List Sale
  monthlySnapshots : List (String × Snapshot)
deriving DecidableEq, Repr

/-- Lookup in a string-keyed object (first matching key wins). -/
def alookup {α : Type} : List (String × α) → String → Option α
  | [], _ => none
  | p :: rest, k => if p.1 = k then some p.2 else alookup rest k

/-- Assignment `obj[k] = v` on a string-keyed object: replaces the first
binding of `k` in place, or appends a new binding at the end (JS insertion
order semantics). -/
def aset {α : Type} : List (String × α) → String → α → List (String × α)
  | [], k, v => [(k, v)]
  | p :: rest, k, v => if p.1 = k then (k, v) :: rest else p :: aset rest k v

/-- `item.quantities[month] || 0`. -/
def qlookup (qs : List (String × Int)) (month : String) : Int :=
  (alookup qs month).getD 0

/-- `normalizeName`: trim plus case-fold. -/
def normalizeName (name : String) : String :=
  strToLower (strTrim name)

/-- `ymd(date)`: the date itself, or `today` when the field is empty. -/
def ymd (date today : String) : String :=
  if date = "" then today else date

/-- `ym(date)`: month key, the first seven characters of `ymd(date)`. -/
def ym (date today : String) : String :=
  (ymd date today).take 7

/-- Comparator used by `getLatestPrice`'s sort: ascending by date string. -/
def dateLE (a b : PriceEntry) : Prop :=
  strLe a.date b.date = true

instance : DecidableRel dateLE :=
  fun a b => inferInstanceAs (Decidable (strLe a.date b.date = true))

instance : IsTotal PriceEntry dateLE :=
  ⟨fun a b => charsLe_total a.date.data b.date.data⟩

instance : IsTrans PriceEntry dateLE :=
  ⟨fun _ _ _ h h₂ => charsLe_trans _ _ _ h h₂⟩

/-- `getLatestPrice`: stable-sort the history by date ascending and take the
last entry's price; `0` when the history is empty.  JS `Array.prototype.sort`
is a stable sort, which `List.insertionSort` implements exactly. -/
def getLatestPrice (item : Item) : Rat :=
  match (List.insertionSort dateLE item.priceHistory).getLast? with
  | none => 0
  | some e => e.price

/-- `logQuantityChange`: append an audit entry unless the delta is zero. -/
def logQuantityChange (item : Item) (month dateStr : String) (delta : Int) (src : String) : Item :=
  if delta = 0 then item
  else { item with qtyHistory := item.qtyHistory ++ [⟨month, dateStr, delta, src⟩] }

/-- The price step of the existing-item branch of the add-item handler:
append a price-history entry only when the new price differs from the
currently-resolved latest price. -/
def upsertPriceStep (item : Item) (price : Rat) (dateStr : String) : Item :=
  if getLatestPrice item ≠ price then
    { item with priceHistory := item.priceHistory ++ [⟨price, dateStr⟩] }
  else item

/-- The quantity step of the existing-item branch of the add-item handler:
`item.quantities[monthKey] = (item.quantities[monthKey] || 0) + qty`. -/
def upsertQtyStep (item : Item) (monthKey : String) (qty : Int) : Item :=
  { item with quantities := aset item.quantities monthKey (qlookup item.quantities monthKey + qty) }

/-- The add-item form handler (`upsertItem`).  `price?`/`qty?` are the parse
results (`none` = NaN).  Invalid input leaves the document unchanged. -/
def upsertItem (d : Doc) (rawName : String) (price? : Option Rat) (qty? : Option Int)
    (date today : String) : Doc :=
  let name := strTrim rawName
  match price?, qty? with
  | some price, some qty =>
    if name = "" ∨ qty ≤ 0 then d
    else
      let monthKey := ym date today
      let key := normalizeName name
      match alookup d.items key with
      | none =>
        let fresh : Item :=
          { name := strTrim name
            priceHistory := [⟨price, ymd date today⟩]
            quantities := [(monthKey, qty)]
            qtyHistory := [⟨monthKey, ymd date today, qty, "addForm"⟩] }
        { d with items := aset d.items key fresh }
      | some item =>
        let item₃ := logQuantityChange (upsertQtyStep (upsertPriceStep item price (ymd date today))
          monthKey qty) monthKey (ymd date today) qty "addForm"
        { d with items := aset d.items key item₃ }
  | _, _ => d

/-- The update-price form handler (`updatePrice`): unconditionally appends a
price-history entry for an existing item; otherwise no change. -/
def updatePrice (d : Doc) (rawName : String) (price? : Option Rat) (date today : String) : Doc :=
  let name := strTrim rawName
  match price? with
  | none => d
  | some price =>
    if name = "" then d
    else
      match alookup d.items (normalizeName name) with
      | none => d
      | some item =>
        let item₁ := { item with priceHistory := item.priceHistory ++ [⟨price, ymd date today⟩] }
        { d with items := aset d.items (normalizeName name) item₁ }

/-- The parse-and-clamp step of the inline-quantity handler:
`parseInt`, then `if (isNaN(qty) || qty < 0) qty = 0`. -/
def parseQty (qty? : Option Int) : Int :=
  match qty? with
  | none => 0
  | some q => if q < 0 then 0 else q

/-- The inline-quantity input handler (`setQuantity`): parse, clamp to ≥ 0,
write, and log the actual delta. -/
def setQuantity (d : Doc) (key : String) (qty? : Option Int) (month today : String) : Doc :=
  let qty : Int := parseQty qty?
  match alookup d.items key with
  | none => d
  | some item =>
    let current := qlookup item.quantities month
    let delta := qty - current
    let item₁ := { item with quantities := aset item.quantities month qty }
    let item₂ := logQuantityChange item₁ month today delta "inlineEdit"
    { d with items := aset d.items key item₂ }

/-- The next stock value of a stepper click:
`decBtn ? Math.max(0, current - 1) : current + 1`. -/
def adjNext (dec : Bool) (current : Int) : Int :=
  if dec then max 0 (current - 1) else current + 1

/-- The plus/minus stepper handler (`adjustQuantity`): decrement floors at
zero, increment adds one. -/
def adjustQuantity (d : Doc) (key : String) (dec : Bool) (month today : String) : Doc :=
  match alookup d.items key with
  | none => d
  | some item =>
    let current := qlookup item.quantities month
    let next := adjNext dec current
    let delta := next - current
    let item₁ := { item with quantities := aset item.quantities month next }
    let item₂ := logQuantityChange item₁ month today delta (if dec then "minus" else "plus")
    { d with items := aset d.items key item₂ }

/-- The delete-selected handler (`deleteItems`): removes each selected key
from the items map; sales and snapshots are untouched. -/
def deleteItems (d : Doc) (keys : List String) : Doc :=
  { d with items := keys.foldl (fun items k => items.filter (fun kv => kv.1 ≠ k)) d.items }

/-- Errors signalled by the sale-form handler (alerts in the source). -/
inductive SaleErr where
  | validation
  | notFound
deriving DecidableEq, Repr

/-- The sale record pushed by the sale-form handler: `total = price * qty`,
`costPerUnit = getLatestPrice(item)` at the moment of the sale,
`autoProfit = (price - costPerUnit) * qty`, and `profit` is
`manualProfitPerUnit * qty` when a parsed manual override is present,
`autoProfit` otherwise; `profitIsManual` records whether the manual field was
non-empty. -/
def saleEntry (item : Item) (date buyer address contact : String) (price : Rat) (qty : Int)
    (manualField : Option (Option Rat)) (today : String) : Sale :=
  { date := ymd date today, buyer, address, contact, item := item.name
    price, qty
    total := rmul price (qty : Rat)
    profit :=
      match manualField with
      | some (some m) => rmul m (qty : Rat)
      | _ => rmul (rsub price (getLatestPrice item)) (qty : Rat)
    profitIsManual := manualField.isSome }

/-- The stock decrement of the sale-form handler: write
`max(0, current - qty)` for the sale's month and log delta `-qty` with
source `"sale"`. -/
def itemAfterSale (item : Item) (monthKey dateStr : String) (qty : Int) : Item :=
  let newQty : Int := max 0 (qlookup item.quantities monthKey - qty)
  logQuantityChange { item with quantities := aset item.quantities monthKey newQty }
    monthKey dateStr (-qty) "sale"

/-- The sale-form submit handler (`recordSale`).  `manualField` models the
manual-profit input: `none` = field empty, `some none` = non-empty but NaN,
`some (some m)` = parsed per-unit profit. -/
def recordSale (d : Doc) (date buyerRaw addressRaw contactRaw itemNameRaw : String)
    (price? : Option Rat) (qty? : Option Int) (manualField : Option (Option Rat))
    (today : String) : Except SaleErr Doc :=
  let buyer := strTrim buyerRaw
  let address := strTrim addressRaw
  let contact := strTrim contactRaw
  let itemName := strTrim itemNameRaw
  match price?, qty? with
  | some price, some qty =>
    if date = "" ∨ buyer = "" ∨ address = "" ∨ contact = "" ∨ itemName = "" ∨ qty ≤ 0 then
      .error .validation
    else
      let monthKey := ym date today
      let key := normalizeName itemName
      match alookup d.items key with
      | none => .error .notFound
      | some item =>
        .ok { d with
          items := aset d.items key (itemAfterSale item monthKey (ymd date today) qty)
          sales := d.sales ++
            [saleEntry item date buyer address contact price qty manualField today] }
  | _, _ => .error .validation

/-- `state.sales.filter(s => ym(s.date) === month)`. -/
def monthSales (d : Doc) (month today : String) : List Sale :=
  d.sales.filter (fun s => ym s.date today = month)

/-- The stock-valuation grand total of `renderMonthlyReport`: items with a
positive quantity for the month, valued at the current latest price. -/
def monthItemsTotal (d : Doc) (month : String) : Rat :=
  d.items.foldl (fun grand kv =>
    let qty := qlookup kv.2.quantities month
    if qty ≤ 0 then grand else radd grand (rmul (getLatestPrice kv.2) (qty : Rat))) 0

/-- The month's sales revenue in `renderMonthlyReport`. -/
def monthSalesTotal (d : Doc) (month today : String) : Rat :=
  (monthSales d month today).foldl (fun sum s => radd sum s.total) 0

/-- The month's sales profit in `renderMonthlyReport`. -/
def monthSalesProfit (d : Doc) (month today : String) : Rat :=
  (monthSales d month today).foldl (fun sum s => radd sum s.profit) 0

/-- The month's sales count in `renderMonthlyReport`. -/
def monthSalesCount (d : Doc) (month today : String) : Nat :=
  (monthSales d month today).length

/-- `renderMonthlyReport`: computes the monthly totals and overwrites the
month's snapshot with them (`generatedAt` is the current timestamp). -/
def renderMonthlyReport (d : Doc) (month genAt today : String) : Doc :=
  let snap : Snapshot :=
    { generatedAt := genAt
      itemsTotal := monthItemsTotal d month
      salesTotal := monthSalesTotal d month today
      salesProfit := monthSalesProfit d month today
      salesCount := monthSalesCount d month today }
  { d with monthlySnapshots := aset d.monthlySnapshots month snap }

/-- `String(n).padStart(2, "0")` for the month number. -/
def pad2 (n : Nat) : String :=
  if n < 10 then "0" ++ toString n else toString n

/-- The twelve month keys of a year, as built in `renderYearly`. -/
def yearMonths (year : Nat) : List String :=
  (List.range 12).map (fun i => toString year ++ "-" ++ pad2 (i + 1))

/-- One row of the yearly summary. -/
structure YRow where
  itemsTotal : Rat
  salesTotal : Rat
  salesProfit : Rat
  combined : Rat
deriving DecidableEq, Repr

/-- The fallback stock valuation in `renderYearly` for a month without a
snapshot. -/
def fallbackItemsTotal (d : Doc) (month : String) : Rat :=
  d.items.foldl (fun t kv =>
    let qty := qlookup kv.2.quantities month
    if qty > 0 then radd t (rmul (qty : Rat) (getLatestPrice kv.2)) else t) 0

/-- One month's row in `renderYearly`: the cached snapshot if present,
otherwise a live recompute from the raw ledgers. -/
def yearlyRow (d : Doc) (m today : String) : YRow :=
  match alookup d.monthlySnapshots m with
  | some snap =>
    ⟨snap.itemsTotal, snap.salesTotal, snap.salesProfit, radd snap.itemsTotal snap.salesTotal⟩
  | none =>
    let itemsTotal := fallbackItemsTotal d m
    let salesRows := monthSales d m today
    let salesTotal := salesRows.foldl (fun s r => radd s r.total) 0
    let salesProfit := salesRows.foldl (fun s r => radd s r.profit) 0
    ⟨itemsTotal, salesTotal, salesProfit, radd itemsTotal salesTotal⟩

/-- The totals row of `renderYearly`: componentwise sum of the twelve month
rows. -/
def renderYearlyTotals (d : Doc) (year : Nat) (today : String) : YRow :=
  ((yearMonths year).map (fun m => yearlyRow d m today)).foldl
    (fun acc r =>
      ⟨radd acc.itemsTotal r.itemsTotal, radd acc.salesTotal r.salesTotal,
        radd acc.salesProfit r.salesProfit, radd acc.combined r.combined⟩)
    ⟨0, 0, 0, 0⟩

/-- Modelled from the spec: among two entries, keep the one with the larger
date, the later one winning ties. -/
def laterMaxEntry (x y : PriceEntry) : PriceEntry :=
  if strLe x.date y.date then y else x

/-- Modelled from the spec for the `resolveCurrentPrice` claim: the
price-history entry with the maximum date, ties resolved in favour of the
later-inserted entry; `none` when the history is empty. -/
def latestBySpec : List PriceEntry → Option PriceEntry
  | [] => none
  | e :: rest => some (rest.foldl laterMaxEntry e)

/-- Extract the resulting document of a successful `recordSale`, defaulting to
the empty document. -/
def okDoc (r : Except SaleErr Doc) : Doc :=
  match r with
  | .ok d => d
  | .error _ => ⟨[], [], []⟩

theorem charsLe_refl : ∀ x : List Char, charsLe x x = true := by
  intro x
  induction x with
  | nil => rfl
  | cons a as ih => simp [charsLe, ih]

theorem charsLe_false_trans : ∀ x y z : List Char,
    charsLe x y = false → charsLe y z = false → charsLe x z = false := by
  intro x
  induction x with
  | nil => intro y z hxy _; simp [charsLe] at hxy
  | cons a as ih =>
    intro y z hxy hyz
    cases y with
    | nil =>
      cases z with
      | nil => rfl
      | cons c cs => simp [charsLe] at hyz
    | cons b bs =>
      cases z with
      | nil => rfl
      | cons c cs =>
        simp only [charsLe] at hxy hyz ⊢
        by_cases h₁ : a.toNat < b.toNat
        · simp [h₁] at hxy
        · by_cases h₂ : b.toNat < c.toNat
          · simp [h₂] at hyz
          · by_cases h₃ : b.toNat < a.toNat
            · by_cases h₄ : c.toNat < b.toNat
              · have h₅ : c.toNat < a.toNat := Nat.lt_trans h₄ h₃
                have h₆ : ¬ a.toNat < c.toNat := by omega
                simp [h₅, h₆]
              · have hbc : b.toNat = c.toNat := by omega
                have h₅ : c.toNat < a.toNat := hbc ▸ h₃
                have h₆ : ¬ a.toNat < c.toNat := by omega
                simp [h₅, h₆]
            · have hab : a.toNat = b.toNat := Nat.le_antisymm (Nat.le_of_not_lt h₃) (Nat.le_of_not_lt h₁)
              by_cases h₄ : c.toNat < b.toNat
              · have h₅ : c.toNat < a.toNat := hab ▸ h₄
                have h₆ : ¬ a.toNat < c.toNat := by omega
                simp [h₅, h₆]
              · have hbc : b.toNat = c.toNat := by omega
                have h₅ : ¬ a.toNat < c.toNat := by omega
                have h₆ : ¬ c.toNat < a.toNat := by omega
                simp [h₁, h₃] at hxy
                simp [h₂, h₄] at hyz
                simp [h₅, h₆]
                exact ih bs cs hxy hyz

theorem alookup_aset_self {α : Type} (l : List (String × α)) (k : String) (v : α) :
    alookup (aset l k v) k = some v := by
  induction l with
  | nil => simp [aset, alookup]
  | cons p rest ih =>
    by_cases h : p.1 = k
    · simp [aset, h, alookup]
    · simp [aset, h, alookup, ih]

theorem alookup_aset_ne {α : Type} (l : List (String × α)) (k k₂ : String) (v : α)
    (h : k₂ ≠ k) : alookup (aset l k v) k₂ = alookup l k₂ := by
  have h₁ : ¬ (k = k₂) := fun hh => h hh.symm
  induction l with
  | nil => simp [aset, alookup, h₁]
  | cons p rest ih =>
    by_cases hp : p.1 = k
    · have h₂ : ¬ (p.1 = k₂) := fun hh => h (by rw [← hh, hp])
      simp [aset, hp, alookup, h₁, h₂]
    · by_cases hp₂ : p.1 = k₂
      · simp [aset, hp, alookup, hp₂, h]
      · simp [aset, hp, alookup, hp₂, ih]

theorem alookup_mem {α : Type} {l : List (String × α)} {k : String} {v : α}
    (h : alookup l k = some v) : (k, v) ∈ l := by
  induction l with
  | nil => simp [alookup] at h
  | cons p rest ih =>
    rw [alookup] at h
    by_cases hp : p.1 = k
    · rw [if_pos hp, Option.some_inj] at h
      have hpk : p = (k, v) := by
        obtain ⟨k₀, v₀⟩ := p
        simp only at hp h
        rw [hp, h]
      exact List.mem_cons.2 (.inl hpk.symm)
    · rw [if_neg hp] at h
      exact List.mem_cons_of_mem _ (ih h)

theorem mem_aset {α : Type} {l : List (String × α)} {k : String} {v : α} {p : String × α}
    (h : p ∈ aset l k v) : p = (k, v) ∨ p ∈ l := by
  induction l with
  | nil => simp [aset] at h; simp [h]
  | cons q rest ih =>
    by_cases hq : q.1 = k
    · simp only [aset, hq, if_pos] at h
      rcases List.mem_cons.1 h with h | h
      · exact .inl h
      · exact .inr (List.mem_cons_of_mem _ h)
    · simp only [aset, hq, if_neg, not_false_iff] at h
      rcases List.mem_cons.1 h with h | h
      · exact .inr (h ▸ List.mem_cons_self _ _)
      · rcases ih h with h | h
        · exact .inl h
        · exact .inr (List.mem_cons_of_mem _ h)

theorem laterMaxEntry_assoc (a b c : PriceEntry) :
    laterMaxEntry (laterMaxEntry a b) c = laterMaxEntry a (laterMaxEntry b c) := by
  unfold laterMaxEntry
  by_cases hab : strLe a.date b.date = true
  · by_cases hbc : strLe b.date c.date = true
    · have hac : strLe a.date c.date = true := charsLe_trans _ _ _ hab hbc
      simp [hab, hbc, hac]
    · simp [hab, hbc]
  · by_cases hbc : strLe b.date c.date = true
    · simp [hab, hbc]
    · have hac : strLe a.date c.date = false :=
        charsLe_false_trans _ _ _ (Bool.eq_false_iff.2 hab) (Bool.eq_false_iff.2 hbc)
      simp [hab, hbc, hac]

instance : Std.Associative laterMaxEntry := ⟨laterMaxEntry_assoc⟩

theorem getLast?_mem_of_eq {α : Type} : ∀ {l : List α} {m : α}, l.getLast? = some m → m ∈ l := by
  intro l
  induction l with
  | nil => intro m hm; simp at hm
  | cons a t ih =>
    intro m hm
    cases t with
    | nil =>
      simp only [List.getLast?_singleton, Option.some_inj] at hm
      simp [hm]
    | cons b u =>
      rw [List.getLast?_cons_cons] at hm
      exact List.mem_cons_of_mem _ (ih hm)

theorem sorted_head_le_getLast {b : PriceEntry} {t : List PriceEntry} {m : PriceEntry}
    (hs : (b :: t).Sorted dateLE) (hm : (b :: t).getLast? = some m) :
    strLe b.date m.date = true := by
  have hmem : m ∈ b :: t := getLast?_mem_of_eq hm
  rcases List.mem_cons.1 hmem with h | h
  · subst h; exact charsLe_refl _
  · exact (List.sorted_cons.1 hs).1 m h

theorem getLast?_orderedInsert (s : List PriceEntry) (hs : s.Sorted dateLE) (a : PriceEntry) :
    (List.orderedInsert dateLE a s).getLast? =
      some (match s.getLast? with
            | none => a
            | some m => laterMaxEntry a m) := by
  induction s with
  | nil => rfl
  | cons b t ih =>
    by_cases hab : dateLE a b
    · rw [List.orderedInsert, if_pos hab]
      cases hm : (b :: t).getLast? with
      | none => simp at hm
      | some m =>
        have hbm : strLe b.date m.date = true := sorted_head_le_getLast hs hm
        have ham : strLe a.date m.date = true := charsLe_trans _ _ _ hab hbm
        rw [List.getLast?_cons_cons, hm]
        simp [laterMaxEntry, ham]
    · rw [List.orderedInsert, if_neg hab]
      have ht : t.Sorted dateLE := (List.sorted_cons.1 hs).2
      cases t with
      | nil =>
        simp only [List.orderedInsert]
        have : strLe a.date b.date = false := Bool.eq_false_iff.2 hab
        simp [laterMaxEntry, this]
      | cons c u =>
        have hne : List.orderedInsert dateLE a (c :: u) ≠ [] := by
          have : (List.orderedInsert dateLE a (c :: u)).length = (c :: u).length + 1 :=
            List.orderedInsert_length dateLE (c :: u) a
          intro hcontra
          rw [hcontra] at this
          simp at this
        rw [List.getLast?_cons_cons]
        cases he : List.orderedInsert dateLE a (c :: u) with
        | nil => exact absurd he hne
        | cons e es =>
          rw [List.getLast?_cons_cons, ← he, ih ht]

theorem getLast?_insertionSort (l : List PriceEntry) :
    (List.insertionSort dateLE l).getLast? = latestBySpec l := by
  induction l with
  | nil => rfl
  | cons a t ih =>
    rw [List.insertionSort, getLast?_orderedInsert _ (List.sorted_insertionSort dateLE t) a, ih]
    cases t with
    | nil => rfl
    | cons e ts =>
      show some (laterMaxEntry a (ts.foldl laterMaxEntry e)) = latestBySpec (a :: e :: ts)
      rw [latestBySpec]
      rw [show (e :: ts).foldl laterMaxEntry a = ts.foldl laterMaxEntry (laterMaxEntry a e) from rfl]
      rw [List.foldl_assoc]

theorem foldl_laterMaxEntry_mem (ts : List PriceEntry) (e : PriceEntry) :
    ts.foldl laterMaxEntry e ∈ e :: ts := by
  induction ts generalizing e with
  | nil => simp
  | cons y ts ih =>
    have step : laterMaxEntry e y = e ∨ laterMaxEntry e y = y := by
      unfold laterMaxEntry
      by_cases h : strLe e.date y.date = true <;> simp [h]
    have hmem := ih (laterMaxEntry e y)
    show List.foldl laterMaxEntry (laterMaxEntry e y) ts ∈ e :: y :: ts
    rcases List.mem_cons.1 hmem with h | h
    · rcases step with hstep | hstep
      · rw [h, hstep]; exact List.mem_cons_self _ _
      · rw [h, hstep]; exact List.mem_cons_of_mem _ (List.mem_cons_self _ _)
    · exact List.mem_cons_of_mem _ (List.mem_cons_of_mem _ h)

theorem foldl_laterMaxEntry_ge (ts : List PriceEntry) (e : PriceEntry) :
    ∀ x ∈ e :: ts, strLe x.date (ts.foldl laterMaxEntry e).date = true := by
  induction ts generalizing e with
  | nil =>
    intro x hx
    rcases List.mem_cons.1 hx with h | h
    · subst h; exact charsLe_refl _
    · simp at h
  | cons y ts ih =>
    have hey : strLe e.date (laterMaxEntry e y).date = true := by
      unfold laterMaxEntry
      by_cases h : strLe e.date y.date = true
      · rw [if_pos h]; exact h
      · rw [if_neg h]; exact charsLe_refl _
    have hyy : strLe y.date (laterMaxEntry e y).date = true := by
      unfold laterMaxEntry
      by_cases h : strLe e.date y.date = true
      · rw [if_pos h]; exact charsLe_refl _
      · rw [if_neg h]
        rcases charsLe_total e.date.data y.date.data with h₁ | h₁
        · exact absurd h₁ h
        · exact h₁
    intro x hx
    have hrec := ih (laterMaxEntry e y)
    rcases List.mem_cons.1 hx with h | h
    · subst h
      exact charsLe_trans _ _ _ hey (hrec _ (List.mem_cons_self _ _))
    · rcases List.mem_cons.1 h with h₂ | h₂
      · subst h₂
        exact charsLe_trans _ _ _ hyy (hrec _ (List.mem_cons_self _ _))
      · exact hrec _ (List.mem_cons_of_mem _ h₂)

/-- C3: for every item, `getLatestPrice` (the source's `resolveCurrentPrice`)
returns the price of the price-history entry with the maximum date, the
later-inserted entry winning ties (as captured by the spec-side
`latestBySpec`), and `0` when the item has no price-history entries; the
selected entry is in the history and its date is maximal. -/
theorem claim_C3_resolveCurrentPrice (item : Item) :
    getLatestPrice item =
      (match latestBySpec item.priceHistory with
       | none => 0
       | some e => e.price) ∧
    (∀ e, latestBySpec item.priceHistory = some e →
      e ∈ item.priceHistory ∧ ∀ x ∈ item.priceHistory, strLe x.date e.date = true) := by
  constructor
  · rw [getLatestPrice, getLast?_insertionSort]
  · intro e he
    cases hl : item.priceHistory with
    | nil => rw [hl] at he; simp [latestBySpec] at he
    | cons a ts =>
      rw [hl] at he
      simp only [latestBySpec, Option.some_inj] at he
      subst he
      exact ⟨hl ▸ foldl_laterMaxEntry_mem ts a, hl ▸ foldl_laterMaxEntry_ge ts a⟩

/-- Concrete item used to witness C3. -/
def itemC3 : Item :=
  { name := "Rice", priceHistory := [⟨10, "2024-01-05"⟩, ⟨7, "2024-01-01"⟩, ⟨9, "2024-01-05"⟩],
    quantities := [], qtyHistory := [] }

theorem logQuantityChange_name (item : Item) (m ds : String) (delta : Int) (src : String) :
    (logQuantityChange item m ds delta src).name = item.name := by
  unfold logQuantityChange; split <;> rfl

theorem logQuantityChange_quantities (item : Item) (m ds : String) (delta : Int) (src : String) :
    (logQuantityChange item m ds delta src).quantities = item.quantities := by
  unfold logQuantityChange; split <;> rfl

theorem logQuantityChange_priceHistory (item : Item) (m ds : String) (delta : Int) (src : String) :
    (logQuantityChange item m ds delta src).priceHistory = item.priceHistory := by
  unfold logQuantityChange; split <;> rfl

theorem logQuantityChange_qtyHistory_of_ne (item : Item) (m ds : String) (delta : Int)
    (src : String) (h : delta ≠ 0) :
    (logQuantityChange item m ds delta src).qtyHistory =
      item.qtyHistory ++ [⟨m, ds, delta, src⟩] := by
  unfold logQuantityChange; rw [if_neg h]

theorem monthItemsTotal_set_snapshots (d : Doc) (s : List (String × Snapshot)) (month : String) :
    monthItemsTotal { d with monthlySnapshots := s } month = monthItemsTotal d month := rfl

theorem monthSalesTotal_set_snapshots (d : Doc) (s : List (String × Snapshot)) (month today : String) :
    monthSalesTotal { d with monthlySnapshots := s } month today = monthSalesTotal d month today := rfl

theorem monthSalesProfit_set_snapshots (d : Doc) (s : List (String × Snapshot)) (month today : String) :
    monthSalesProfit { d with monthlySnapshots := s } month today = monthSalesProfit d month today := rfl

theorem monthSalesCount_set_snapshots (d : Doc) (s : List (String × Snapshot)) (month today : String) :
    monthSalesCount { d with monthlySnapshots := s } month today = monthSalesCount d month today := rfl

/-- C7: calling `renderMonthlyReport` twice for the same month with no
intervening mutation stores the same numeric totals (`itemsTotal`,
`salesTotal`, `salesProfit`, `salesCount`) both times; only the snapshot's
`generatedAt` timestamp differs between the two calls. -/
theorem claim_C7_monthlyReport_idempotent (d : Doc) (month genAt₁ genAt₂ today : String) :
    alookup (renderMonthlyReport d month genAt₁ today).monthlySnapshots month =
      some ⟨genAt₁, monthItemsTotal d month, monthSalesTotal d month today,
        monthSalesProfit d month today, monthSalesCount d month today⟩ ∧
    alookup (renderMonthlyReport (renderMonthlyReport d month genAt₁ today) month
        genAt₂ today).monthlySnapshots month =
      some ⟨genAt₂, monthItemsTotal d month, monthSalesTotal d month today,
        monthSalesProfit d month today, monthSalesCount d month today⟩ := by
  constructor
  · simp only [renderMonthlyReport]
    exact alookup_aset_self ..
  · simp only [renderMonthlyReport, monthItemsTotal_set_snapshots, monthSalesTotal_set_snapshots,
      monthSalesProfit_set_snapshots, monthSalesCount_set_snapshots]
    exact alookup_aset_self ..

theorem foldl_filter_ne {α : Type} (keys : List String) (l : List (String × α)) :
    keys.foldl (fun items k => items.filter (fun kv => kv.1 ≠ k)) l
      = l.filter (fun kv => kv.1 ∉ keys) := by
  induction keys generalizing l with
  | nil => simp
  | cons k ks ih =>
    rw [List.foldl_cons, ih, List.filter_filter]
    apply List.filter_congr
    intro kv _
    by_cases h₁ : kv.1 = k
    · simp [h₁]
    · by_cases h₂ : kv.1 ∈ ks
      · simp [h₁, h₂]
      · simp [h₁, h₂]

/-- C9: `deleteItems` removes exactly the selected keys from the items map
(so they can no longer contribute to any later monthly report, which iterates
the items map), while the sales ledger — every past sale record with its
stored display name, price, qty, total and profit — is exactly unchanged, as
is the sales-for-month view. -/
theorem claim_C9_deleteItems_frame (d : Doc) (keys : List String) :
    (deleteItems d keys).items = d.items.filter (fun kv => kv.1 ∉ keys) ∧
    (deleteItems d keys).sales = d.sales ∧
    (∀ month today, monthSales (deleteItems d keys) month today = monthSales d month today) := by
  exact ⟨foldl_filter_ne keys d.items, rfl, fun _ _ => rfl⟩

/-- A stock-editing operation: an inline quantity edit (`setQuantity`) or a
stepper click (`adjustQuantity`). -/
inductive QtyOp where
  | set (key : String) (qty? : Option Int) (month today : String)
  | adjust (key : String) (dec : Bool) (month today : String)

/-- Run one stock-editing operation on the document. -/
def applyQtyOp (d : Doc) : QtyOp → Doc
  | .set key qty? month today => setQuantity d key qty? month today
  | .adjust key dec month today => adjustQuantity d key dec month today

/-- Run a sequence of stock-editing operations. -/
def applyQtyOps (d : Doc) (ops : List QtyOp) : Doc :=
  ops.foldl applyQtyOp d

/-- All stored stock levels of the document are nonnegative. -/
def NonnegStock (d : Doc) : Prop :=
  ∀ kv ∈ d.items, ∀ q ∈ kv.2.quantities, 0 ≤ q.2

instance : DecidablePred NonnegStock :=
  fun d => inferInstanceAs (Decidable (∀ kv ∈ d.items, ∀ q ∈ kv.2.quantities, 0 ≤ q.2))

theorem qlookup_nonneg {qs : List (String × Int)} (h : ∀ q ∈ qs, 0 ≤ q.2) (month : String) :
    0 ≤ qlookup qs month := by
  unfold qlookup
  cases hl : alookup qs month with
  | none => simp
  | some v => simpa using h (month, v) (alookup_mem hl)

theorem parseQty_nonneg (qty? : Option Int) : 0 ≤ parseQty qty? := by
  unfold parseQty
  cases qty? with
  | none => simp
  | some v =>
    by_cases hv : v < 0
    · simp [hv]
    · simp [hv]; omega

theorem setQuantity_items_none (d : Doc) (key : String) (qty? : Option Int) (month today : String)
    (hl : alookup d.items key = none) : setQuantity d key qty? month today = d := by
  unfold setQuantity; rw [hl]

theorem setQuantity_items_some (d : Doc) (key : String) (qty? : Option Int) (month today : String)
    (item : Item) (hl : alookup d.items key = some item) :
    (setQuantity d key qty? month today).items =
      aset d.items key
        (logQuantityChange { item with quantities := aset item.quantities month (parseQty qty?) }
          month today (parseQty qty? - qlookup item.quantities month) "inlineEdit") := by
  unfold setQuantity; rw [hl]

theorem adjustQuantity_items_none (d : Doc) (key : String) (dec : Bool) (month today : String)
    (hl : alookup d.items key = none) : adjustQuantity d key dec month today = d := by
  unfold adjustQuantity; rw [hl]

theorem adjustQuantity_items_some (d : Doc) (key : String) (dec : Bool) (month today : String)
    (item : Item) (hl : alookup d.items key = some item) :
    (adjustQuantity d key dec month today).items =
      aset d.items key
        (logQuantityChange
          { item with quantities := aset item.quantities month (adjNext dec (qlookup item.quantities month)) }
          month today (adjNext dec (qlookup item.quantities month) - qlookup item.quantities month)
          (if dec then "minus" else "plus")) := by
  unfold adjustQuantity; rw [hl]

theorem adjNext_nonneg (dec : Bool) (current : Int) (h : 0 ≤ current) :
    0 ≤ adjNext dec current := by
  unfold adjNext
  cases dec with
  | true => simp
  | false => simp; omega

theorem setQuantity_nonneg (d : Doc) (key : String) (qty? : Option Int) (month today : String)
    (h : NonnegStock d) : NonnegStock (setQuantity d key qty? month today) := by
  cases hl : alookup d.items key with
  | none => rw [setQuantity_items_none d key qty? month today hl]; exact h
  | some item =>
    unfold NonnegStock
    intro kv hkv q hq
    rw [setQuantity_items_some d key qty? month today item hl] at hkv
    rcases mem_aset hkv with hkv | hkv
    · subst hkv
      simp only [logQuantityChange_quantities] at hq
      rcases mem_aset hq with hq | hq
      · subst hq
        exact parseQty_nonneg qty?
      · exact h (key, item) (alookup_mem hl) q hq
    · exact h kv hkv q hq

theorem adjustQuantity_nonneg (d : Doc) (key : String) (dec : Bool) (month today : String)
    (h : NonnegStock d) : NonnegStock (adjustQuantity d key dec month today) := by
  cases hl : alookup d.items key with
  | none => rw [adjustQuantity_items_none d key dec month today hl]; exact h
  | some item =>
    unfold NonnegStock
    intro kv hkv q hq
    rw [adjustQuantity_items_some d key dec month today item hl] at hkv
    rcases mem_aset hkv with hkv | hkv
    · subst hkv
      simp only [logQuantityChange_quantities] at hq
      rcases mem_aset hq with hq | hq
      · subst hq
        exact adjNext_nonneg dec _ (qlookup_nonneg (h (key, item) (alookup_mem hl)) month)
      · exact h (key, item) (alookup_mem hl) q hq
    · exact h kv hkv q hq

theorem applyQtyOps_nonneg (ops : List QtyOp) (d : Doc) (h : NonnegStock d) :
    NonnegStock (applyQtyOps d ops) := by
  induction ops generalizing d with
  | nil => exact h
  | cons op ops ih =>
    rw [applyQtyOps, List.foldl_cons]
    refine ih _ ?_
    cases op with
    | set key qty? month today => exact setQuantity_nonneg d key qty? month today h
    | adjust key dec month today => exact adjustQuantity_nonneg d key dec month today h

/-- C2: starting from any document whose stock levels are all nonnegative, any
sequence of `setQuantity` (inline edit) and `adjustQuantity` (stepper)
operations keeps every stored `quantities[month]` nonnegative; in particular
every looked-up stock value after the sequence is ≥ 0. -/
theorem claim_C2_stock_never_negative (d : Doc) (ops : List QtyOp) (h : NonnegStock d) :
    NonnegStock (applyQtyOps d ops) ∧
    ∀ key item month, alookup (applyQtyOps d ops).items key = some item →
      0 ≤ qlookup item.quantities month := by
  have hpres := applyQtyOps_nonneg ops d h
  refine ⟨hpres, fun key item month hit => ?_⟩
  exact qlookup_nonneg (fun q hq => hpres (key, item) (alookup_mem hit) q hq) month

/-- Concrete document and operation sequence used to witness C2. -/
def docC2 : Doc := ⟨[("w", ⟨"W", [], [("2024-01", 2)], []⟩)], [], []⟩

def opsC2 : List QtyOp :=
  [.set "w" (some (-4)) "2024-01" "2024-01-05", .adjust "w" true "2024-01" "2024-01-06",
   .adjust "w" true "2024-01" "2024-01-07", .set "w" none "2024-02" "2024-01-08"]

def itemC2 : Item := (alookup (applyQtyOps docC2 opsC2).items "w").getD ⟨"", [], [], []⟩

theorem claim_C2_witness :
    NonnegStock docC2 ∧ NonnegStock (applyQtyOps docC2 opsC2) ∧
    0 ≤ qlookup itemC2.quantities "2024-01" :=
  ⟨by decide, (claim_C2_stock_never_negative docC2 opsC2 (by decide)).1,
   (claim_C2_stock_never_negative docC2 opsC2 (by decide)).2 "w" itemC2 "2024-01" (by decide)⟩

theorem claim_C3_witness :
    getLatestPrice itemC3 =
      (match latestBySpec itemC3.priceHistory with
       | none => 0
       | some e => e.price) ∧
    (⟨9, "2024-01-05"⟩ : PriceEntry) ∈ itemC3.priceHistory ∧
    ∀ x ∈ itemC3.priceHistory, strLe x.date "2024-01-05" = true :=
  ⟨(claim_C3_resolveCurrentPrice itemC3).1,
   ((claim_C3_resolveCurrentPrice itemC3).2 ⟨9, "2024-01-05"⟩ (by decide)).1,
   ((claim_C3_resolveCurrentPrice itemC3).2 ⟨9, "2024-01-05"⟩ (by decide)).2⟩

theorem recordSale_ok_inv {d : Doc} {date buyerRaw addressRaw contactRaw itemNameRaw : String}
    {price : Rat} {qty : Int} {manualField : Option (Option Rat)} {today : String} {d₂ : Doc}
    (h : recordSale d date buyerRaw addressRaw contactRaw itemNameRaw (some price) (some qty)
      manualField today = .ok d₂) :
    0 < qty ∧
    ∃ it, alookup d.items (normalizeName (strTrim itemNameRaw)) = some it ∧
      d₂ = { d with
        items := aset d.items (normalizeName (strTrim itemNameRaw))
          (itemAfterSale it (ym date today) (ymd date today) qty)
        sales := d.sales ++ [saleEntry it date (strTrim buyerRaw) (strTrim addressRaw)
          (strTrim contactRaw) price qty manualField today] } := by
  simp only [recordSale] at h
  by_cases hc : date = "" ∨ strTrim buyerRaw = "" ∨ strTrim addressRaw = "" ∨
      strTrim contactRaw = "" ∨ strTrim itemNameRaw = "" ∨ qty ≤ 0
  · rw [if_pos hc] at h
    exact Except.noConfusion h
  · rw [if_neg hc] at h
    push_neg at hc
    refine ⟨hc.2.2.2.2.2, ?_⟩
    cases hl : alookup d.items (normalizeName (strTrim itemNameRaw)) with
    | none =>
      rw [hl] at h
      exact Except.noConfusion h
    | some it =>
      rw [hl] at h
      refine ⟨it, rfl, ?_⟩
      injection h with h₂
      exact h₂.symm

theorem updatePrice_sales (d : Doc) (rawName : String) (price? : Option Rat)
    (date today : String) : (updatePrice d rawName price? date today).sales = d.sales := by
  unfold updatePrice
  split
  · rfl
  · dsimp only
    split
    · rfl
    · split <;> rfl

theorem upsertItem_sales (d : Doc) (rawName : String) (price? : Option Rat) (qty? : Option Int)
    (date today : String) : (upsertItem d rawName price? qty? date today).sales = d.sales := by
  unfold upsertItem
  split
  · dsimp only
    split
    · rfl
    · split <;> rfl
  · rfl

/-- C1: a successful `recordSale` appends exactly one sale record whose profit
is `manualProfitPerUnit * qty` when a parsed manual override was supplied and
`(price - costPerUnit) * qty` otherwise, where `costPerUnit` is the item's
resolved current price (`getLatestPrice`) at the moment of the sale; and no
`updatePrice` or `upsertItem` call ever changes the stored sales list, so the
stored profit of a past sale is never retroactively altered. -/
theorem claim_C1_saleProfit (d : Doc) (date buyerRaw addressRaw contactRaw itemNameRaw : String)
    (price : Rat) (qty : Int) (manualField : Option (Option Rat)) (today : String) (d₂ : Doc)
    (h : recordSale d date buyerRaw addressRaw contactRaw itemNameRaw (some price) (some qty)
      manualField today = .ok d₂) :
    (∃ it, alookup d.items (normalizeName (strTrim itemNameRaw)) = some it ∧
      ∃ sale, d₂.sales = d.sales ++ [sale] ∧
        sale.profit = (match manualField with
          | some (some m) => m * (qty : Rat)
          | _ => (price - getLatestPrice it) * (qty : Rat)) ∧
        sale.profitIsManual = manualField.isSome) ∧
    (∀ d₃ n p dt t, (updatePrice d₃ n p dt t).sales = d₃.sales) ∧
    (∀ d₃ n p q dt t, (upsertItem d₃ n p q dt t).sales = d₃.sales) := by
  obtain ⟨hqty, it, hl, hd⟩ := recordSale_ok_inv h
  refine ⟨⟨it, hl, saleEntry it date (strTrim buyerRaw) (strTrim addressRaw) (strTrim contactRaw)
    price qty manualField today, ?_, ?_, rfl⟩,
    fun d₃ n p dt t => updatePrice_sales d₃ n p dt t,
    fun d₃ n p q dt t => upsertItem_sales d₃ n p q dt t⟩
  · rw [hd]
  · cases manualField with
    | none =>
      show rmul (rsub price (getLatestPrice it)) (qty : Rat) = (price - getLatestPrice it) * (qty : Rat)
      rw [rmul_eq, rsub_eq]
    | some mv =>
      cases mv with
      | none =>
        show rmul (rsub price (getLatestPrice it)) (qty : Rat) = (price - getLatestPrice it) * (qty : Rat)
        rw [rmul_eq, rsub_eq]
      | some m =>
        show rmul m (qty : Rat) = m * (qty : Rat)
        rw [rmul_eq]

/-- Concrete document used to witness C1 and C4 and to refute C8. -/
def docC4 : Doc :=
  ⟨[("x", ⟨"X", [⟨10, "2024-01-01"⟩], [("2024-01", 3)], []⟩)], [], []⟩

def resC1 : Doc :=
  okDoc (recordSale docC4 "2024-01-10" "Bob" "Addr" "055" "x" (some 12) (some 2) none "2024-01-10")

theorem claim_C1_witness :
    (∃ it, alookup docC4.items (normalizeName (strTrim "x")) = some it ∧
      ∃ sale, resC1.sales = docC4.sales ++ [sale] ∧
        sale.profit = (match (none : Option (Option Rat)) with
          | some (some m) => m * ((2 : Int) : Rat)
          | _ => ((12 : Rat) - getLatestPrice it) * ((2 : Int) : Rat)) ∧
        sale.profitIsManual = (none : Option (Option Rat)).isSome) ∧
    (∀ d₃ n p dt t, (updatePrice d₃ n p dt t).sales = d₃.sales) ∧
    (∀ d₃ n p q dt t, (upsertItem d₃ n p q dt t).sales = d₃.sales) :=
  claim_C1_saleProfit docC4 "2024-01-10" "Bob" "Addr" "055" "x" 12 2 none "2024-01-10" resC1
    (by rfl)

/-- C4 (amended): a successful `recordSale` of `qty` units writes stock
`max(0, s - qty)` for the sale's month, but the audit entry it appends always
has delta `-qty` (the requested decrement, source `"sale"`), not the clamped
actual change `max(0, s - qty) - s`, and it is always appended (qty ≥ 1 makes
the delta nonzero, so the skip-if-zero guard never fires on this path). -/
theorem claim_C4_amended (d : Doc) (date buyerRaw addressRaw contactRaw itemNameRaw : String)
    (price : Rat) (qty : Int) (manualField : Option (Option Rat)) (today : String) (d₂ : Doc)
    (h : recordSale d date buyerRaw addressRaw contactRaw itemNameRaw (some price) (some qty)
      manualField today = .ok d₂)
    (it : Item) (hl : alookup d.items (normalizeName (strTrim itemNameRaw)) = some it) :
    ∃ it₂, alookup d₂.items (normalizeName (strTrim itemNameRaw)) = some it₂ ∧
      qlookup it₂.quantities (ym date today) =
        max 0 (qlookup it.quantities (ym date today) - qty) ∧
      it₂.qtyHistory = it.qtyHistory ++ [⟨ym date today, ymd date today, -qty, "sale"⟩] := by
  obtain ⟨hqty, it₀, hl₀, hd⟩ := recordSale_ok_inv h
  rw [hl] at hl₀
  obtain rfl : it = it₀ := Option.some_inj.1 hl₀
  subst hd
  refine ⟨itemAfterSale it (ym date today) (ymd date today) qty, alookup_aset_self .., ?_, ?_⟩
  · simp [itemAfterSale, logQuantityChange_quantities, qlookup, alookup_aset_self]
  · unfold itemAfterSale
    rw [logQuantityChange_qtyHistory_of_ne _ _ _ _ _ (by omega)]

def resC4 : Doc :=
  okDoc (recordSale docC4 "2024-01-10" "b" "a" "c" "x" (some 12) (some 5) none "2024-01-10")

/-- C4 as stated is false: with prior stock 3 and a sale of 5 units, the code
logs audit delta `-5`, but the actual stock change is `max(0, 3-5) - 3 = -3`. -/
theorem claim_C4_counterexample :
    (alookup resC4.items "x").map (fun it => it.qtyHistory.map QtyEntry.delta) = some [-5] ∧
    (alookup resC4.items "x").map (fun it => qlookup it.quantities "2024-01") = some 0 ∧
    ¬ (-5 : Int) = max 0 ((3 : Int) - 5) - 3 := by
  decide

theorem claim_C4_witness :
    ∃ it₂, alookup resC4.items (normalizeName (strTrim "x")) = some it₂ ∧
      qlookup it₂.quantities (ym "2024-01-10" "2024-01-10") =
        max 0 (qlookup [("2024-01", (3 : Int))] (ym "2024-01-10" "2024-01-10") - 5) ∧
      it₂.qtyHistory = [] ++ [⟨ym "2024-01-10" "2024-01-10", ymd "2024-01-10" "2024-01-10", -5, "sale"⟩] :=
  claim_C4_amended docC4 "2024-01-10" "b" "a" "c" "x" 12 5 none "2024-01-10" resC4 (by rfl)
    ⟨"X", [⟨10, "2024-01-01"⟩], [("2024-01", 3)], []⟩ (by decide)

/-- C8 (amended): `recordSale` rejects with a `ValidationError` — leaving the
document untouched — exactly on the checks the code performs: an empty date,
buyer, address, contact or item name, a NaN price, a NaN qty, or qty ≤ 0.  The
code does not check `price ≥ 0` (nor finiteness): a negative price passes
validation and the sale is recorded. -/
theorem claim_C8_amended (d : Doc) (date buyerRaw addressRaw contactRaw itemNameRaw : String)
    (price? : Option Rat) (qty? : Option Int) (manualField : Option (Option Rat)) (today : String)
    (h : date = "" ∨ strTrim buyerRaw = "" ∨ strTrim addressRaw = "" ∨ strTrim contactRaw = "" ∨
      strTrim itemNameRaw = "" ∨ price? = none ∨ qty? = none ∨ ∃ q, qty? = some q ∧ q ≤ 0) :
    recordSale d date buyerRaw addressRaw contactRaw itemNameRaw price? qty? manualField today =
      .error .validation := by
  cases price? with
  | none => rfl
  | some price =>
    cases qty? with
    | none => rfl
    | some q =>
      simp only [recordSale]
      split
      · rfl
      · rename_i hcond
        exfalso
        push_neg at hcond
        obtain ⟨h₁, h₂, h₃, h₄, h₅, h₆⟩ := hcond
        rcases h with h | h | h | h | h | h | h | ⟨q₂, hq₂, hle⟩
        · exact h₁ h
        · exact h₂ h
        · exact h₃ h
        · exact h₄ h
        · exact h₅ h
        · exact Option.noConfusion h
        · exact Option.noConfusion h
        · obtain rfl : q = q₂ := Option.some_inj.1 hq₂
          omega

theorem claim_C8_witness :
    recordSale docC4 "2024-01-10" "  " "a" "c" "x" (some 5) (some 1) none "t" =
      .error .validation :=
  claim_C8_amended docC4 "2024-01-10" "  " "a" "c" "x" (some 5) (some 1) none "t"
    (Or.inr (Or.inl (by decide)))

/-- C8 as stated is false: a sale with the negative price `-5` passes
validation, the call succeeds, and the persisted document changes (one sale is
appended). -/
theorem claim_C8_counterexample :
    (recordSale docC4 "2024-01-10" "b" "a" "c" "x" (some (-5)) (some 1) none "2024-01-10").isOk
      = true ∧
    (okDoc (recordSale docC4 "2024-01-10" "b" "a" "c" "x" (some (-5)) (some 1)
      none "2024-01-10")).sales.length = docC4.sales.length + 1 ∧
    ((-5 : Rat)).num < 0 := by
  decide

theorem upsertPriceStep_name (item : Item) (price : Rat) (dateStr : String) :
    (upsertPriceStep item price dateStr).name = item.name := by
  unfold upsertPriceStep; split <;> rfl

theorem upsertPriceStep_priceHistory (item : Item) (price : Rat) (dateStr : String) :
    (upsertPriceStep item price dateStr).priceHistory =
      (if getLatestPrice item ≠ price then item.priceHistory ++ [⟨price, dateStr⟩]
       else item.priceHistory) := by
  unfold upsertPriceStep; split <;> rfl

theorem upsertItem_items_some (d : Doc) (rawName : String) (price : Rat) (qty : Int)
    (date today : String) (it : Item) (hv : ¬ (strTrim rawName = "" ∨ qty ≤ 0))
    (hl : alookup d.items (normalizeName (strTrim rawName)) = some it) :
    (upsertItem d rawName (some price) (some qty) date today).items =
      aset d.items (normalizeName (strTrim rawName))
        (logQuantityChange (upsertQtyStep (upsertPriceStep it price (ymd date today))
          (ym date today) qty) (ym date today) (ymd date today) qty "addForm") := by
  simp only [upsertItem]
  rw [if_neg hv, hl]

/-- C5 (amended): a successful `upsertItem` on an existing item appends
exactly one price-history entry when the given price differs from the
currently-resolved latest price, and none when it is equal to it.  Calling
`upsertItem` twice in a row with the same price can therefore still append a
second entry: when the first call's entry is backdated below the maximum
history date, the resolved latest price stays unchanged and the second call
appends again (see the counterexample). -/
theorem claim_C5_amended (d : Doc) (rawName : String) (price : Rat) (qty : Int)
    (date today : String) (it : Item) (hv : ¬ (strTrim rawName = "" ∨ qty ≤ 0))
    (hl : alookup d.items (normalizeName (strTrim rawName)) = some it) :
    ∃ it₂, alookup (upsertItem d rawName (some price) (some qty) date today).items
        (normalizeName (strTrim rawName)) = some it₂ ∧
      it₂.priceHistory =
        (if getLatestPrice it ≠ price then it.priceHistory ++ [⟨price, ymd date today⟩]
         else it.priceHistory) := by
  refine ⟨logQuantityChange (upsertQtyStep (upsertPriceStep it price (ymd date today))
    (ym date today) qty) (ym date today) (ymd date today) qty "addForm", ?_, ?_⟩
  · rw [upsertItem_items_some d rawName price qty date today it hv hl]
    exact alookup_aset_self ..
  · rw [logQuantityChange_priceHistory]
    show (upsertPriceStep it price (ymd date today)).priceHistory = _
    exact upsertPriceStep_priceHistory it price (ymd date today)

/-- Concrete document refuting C5: the item's one history entry is dated
2024-05-01, and both upserts use price 7 dated 2024-01-01. -/
def docC5 : Doc :=
  ⟨[("x", ⟨"x", [⟨10, "2024-05-01"⟩], [], []⟩)], [], []⟩

def docC5a : Doc := upsertItem docC5 "x" (some 7) (some 1) "2024-01-01" "t"

def docC5b : Doc := upsertItem docC5a "x" (some 7) (some 1) "2024-01-01" "t"

/-- C5 as stated is false: the second identical-price upsert appends a second
price-history entry, because the backdated first entry did not change the
resolved latest price (still 10 ≠ 7). -/
theorem claim_C5_counterexample :
    (alookup docC5a.items "x").map (fun it => it.priceHistory) =
      some [⟨10, "2024-05-01"⟩, ⟨7, "2024-01-01"⟩] ∧
    (alookup docC5b.items "x").map (fun it => it.priceHistory) =
      some [⟨10, "2024-05-01"⟩, ⟨7, "2024-01-01"⟩, ⟨7, "2024-01-01"⟩] ∧
    (alookup docC5a.items "x").map getLatestPrice = some 10 := by
  decide

theorem claim_C5_witness :
    ∃ it₂, alookup (upsertItem docC5 "x" (some 7) (some 1) "2024-01-01" "t").items
        (normalizeName (strTrim "x")) = some it₂ ∧
      it₂.priceHistory =
        (if getLatestPrice (⟨"x", [⟨10, "2024-05-01"⟩], [], []⟩ : Item) ≠ 7 then
          [⟨10, "2024-05-01"⟩] ++ [⟨(7 : Rat), ymd "2024-01-01" "t"⟩]
         else [⟨10, "2024-05-01"⟩]) :=
  claim_C5_amended docC5 "x" 7 1 "2024-01-01" "t" ⟨"x", [⟨10, "2024-05-01"⟩], [], []⟩
    (by decide) (by decide)

/-- C10: upserting over an existing item never changes its stored display
name, whatever the casing or surrounding whitespace of the name used in the
call — the existing-item branch (and the rejection branches) leave `name`
untouched. -/
theorem claim_C10_displayName (d : Doc) (rawName : String) (price? : Option Rat)
    (qty? : Option Int) (date today : String) (it : Item)
    (hl : alookup d.items (normalizeName (strTrim rawName)) = some it) :
    ∃ it₂, alookup (upsertItem d rawName price? qty? date today).items
        (normalizeName (strTrim rawName)) = some it₂ ∧ it₂.name = it.name := by
  cases price? with
  | none => exact ⟨it, hl, rfl⟩
  | some price =>
    cases qty? with
    | none => exact ⟨it, hl, rfl⟩
    | some qty =>
      by_cases hv : strTrim rawName = "" ∨ qty ≤ 0
      · refine ⟨it, ?_, rfl⟩
        simp only [upsertItem]
        rw [if_pos hv]
        exact hl
      · refine ⟨logQuantityChange (upsertQtyStep (upsertPriceStep it price (ymd date today))
          (ym date today) qty) (ym date today) (ymd date today) qty "addForm", ?_, ?_⟩
        · rw [upsertItem_items_some d rawName price qty date today it hv hl]
          exact alookup_aset_self ..
        · rw [logQuantityChange_name]
          show (upsertPriceStep it price (ymd date today)).name = it.name
          exact upsertPriceStep_name it price (ymd date today)

theorem claim_C10_witness :
    ∃ it₂, alookup (upsertItem docC5 "  X " (some 7) (some 1) "2024-06-01" "t").items
        (normalizeName (strTrim "  X ")) = some it₂ ∧
      it₂.name = (⟨"x", [⟨10, "2024-05-01"⟩], [], []⟩ : Item).name :=
  claim_C10_displayName docC5 "  X " (some 7) (some 1) "2024-06-01" "t"
    ⟨"x", [⟨10, "2024-05-01"⟩], [], []⟩ (by decide)

/-- The tuple of monthly-report totals for one month, with
`combined = itemsTotal + salesTotal` (the quantity the yearly rollup sums). -/
def monthlyYRow (d : Doc) (m today : String) : YRow :=
  ⟨monthItemsTotal d m, monthSalesTotal d m today, monthSalesProfit d m today,
    radd (monthItemsTotal d m) (monthSalesTotal d m today)⟩

theorem fallbackItemsTotal_eq (d : Doc) (m : String) :
    fallbackItemsTotal d m = monthItemsTotal d m := by
  unfold fallbackItemsTotal monthItemsTotal
  congr 1
  funext t kv
  dsimp only
  by_cases h : qlookup kv.2.quantities m ≤ 0
  · have h₂ : ¬ qlookup kv.2.quantities m > 0 := by omega
    rw [if_pos h, if_neg h₂]
  · have h₂ : qlookup kv.2.quantities m > 0 := by omega
    rw [if_neg h, if_pos h₂, rmul_eq, rmul_eq, mul_comm]

theorem yearlyRow_eq (d : Doc) (m today : String)
    (hm : ∀ sn, alookup d.monthlySnapshots m = some sn →
      sn.itemsTotal = monthItemsTotal d m ∧ sn.salesTotal = monthSalesTotal d m today ∧
      sn.salesProfit = monthSalesProfit d m today) :
    yearlyRow d m today = monthlyYRow d m today := by
  unfold yearlyRow
  cases hl : alookup d.monthlySnapshots m with
  | none =>
    show (⟨fallbackItemsTotal d m, monthSalesTotal d m today, monthSalesProfit d m today,
      radd (fallbackItemsTotal d m) (monthSalesTotal d m today)⟩ : YRow) = monthlyYRow d m today
    rw [fallbackItemsTotal_eq]
    rfl
  | some sn =>
    obtain ⟨h₁, h₂, h₃⟩ := hm sn hl
    show (⟨sn.itemsTotal, sn.salesTotal, sn.salesProfit,
      radd sn.itemsTotal sn.salesTotal⟩ : YRow) = monthlyYRow d m today
    rw [h₁, h₂, h₃]
    rfl

theorem foldl_yrow_sum (rows : List YRow) (acc : YRow) :
    rows.foldl (fun acc r =>
      ⟨radd acc.itemsTotal r.itemsTotal, radd acc.salesTotal r.salesTotal,
        radd acc.salesProfit r.salesProfit, radd acc.combined r.combined⟩) acc =
      ⟨acc.itemsTotal + (rows.map YRow.itemsTotal).sum,
       acc.salesTotal + (rows.map YRow.salesTotal).sum,
       acc.salesProfit + (rows.map YRow.salesProfit).sum,
       acc.combined + (rows.map YRow.combined).sum⟩ := by
  induction rows generalizing acc with
  | nil => simp
  | cons r rows ih =>
    rw [List.foldl_cons, ih]
    simp only [List.map_cons, List.sum_cons, radd_eq]
    simp only [YRow.mk.injEq]
    refine ⟨by ring, by ring, by ring, by ring⟩

/-- C6 (amended): the yearly totals equal the sums of the twelve monthly
totals (items, sales revenue, sales profit, combined) computed from the same
document, provided every pre-existing snapshot for a month of that year
carries totals equal to the live monthly computation on that same document —
in particular when no snapshots exist, or right after regenerating them.  A
stale snapshot breaks the equality (see the counterexample): `renderYearly`
prefers the cached values while `renderMonthlyReport` recomputes live. -/
theorem claim_C6_amended (d : Doc) (year : Nat) (today : String)
    (H : ∀ m ∈ yearMonths year, ∀ sn, alookup d.monthlySnapshots m = some sn →
      sn.itemsTotal = monthItemsTotal d m ∧ sn.salesTotal = monthSalesTotal d m today ∧
      sn.salesProfit = monthSalesProfit d m today) :
    renderYearlyTotals d year today =
      ⟨((yearMonths year).map (fun m => monthItemsTotal d m)).sum,
       ((yearMonths year).map (fun m => monthSalesTotal d m today)).sum,
       ((yearMonths year).map (fun m => monthSalesProfit d m today)).sum,
       ((yearMonths year).map (fun m => monthItemsTotal d m + monthSalesTotal d m today)).sum⟩ := by
  unfold renderYearlyTotals
  rw [List.map_congr_left (fun m hm => yearlyRow_eq d m today (H m hm))]
  rw [foldl_yrow_sum]
  simp only [zero_add]
  simp only [YRow.mk.injEq]
  refine ⟨?_, ?_, ?_, ?_⟩
  · rw [List.map_map]
    exact congrArg List.sum (List.map_congr_left (fun m _ => rfl))
  · rw [List.map_map]
    exact congrArg List.sum (List.map_congr_left (fun m _ => rfl))
  · rw [List.map_map]
    exact congrArg List.sum (List.map_congr_left (fun m _ => rfl))
  · rw [List.map_map]
    exact congrArg List.sum (List.map_congr_left (fun m _ => radd_eq _ _))

/-- Concrete document refuting C6: the stored snapshot for 2024-01 is stale
(`itemsTotal = 999`) while the live monthly computation gives 10. -/
def docC6 : Doc :=
  ⟨[("a", ⟨"A", [⟨10, "2024-01-01"⟩], [("2024-01", 1)], []⟩)], [],
   [("2024-01", ⟨"t0", 999, 0, 0, 0⟩)]⟩

/-- C6 as stated is false: with a stale pre-existing snapshot the yearly items
total is 999, while the twelve monthly items totals sum to 10. -/
theorem claim_C6_counterexample :
    (renderYearlyTotals docC6 2024 "t").itemsTotal = 999 ∧
    (yearMonths 2024).map (fun m => monthItemsTotal docC6 m) =
      [10, 0, 0, 0, 0, 0, 0, 0, 0, 0, 0, 0] ∧
    ¬ (999 : Rat) = ([10, 0, 0, 0, 0, 0, 0, 0, 0, 0, 0, 0] : List Rat).sum := by
  refine ⟨by decide, by decide, ?_⟩
  norm_num [List.sum_cons, List.sum_nil]

def docC6w : Doc := ⟨[("a", ⟨"A", [⟨10, "2024-01-01"⟩], [("2024-01", 1)], []⟩)], [], []⟩

theorem claim_C6_witness :
    renderYearlyTotals docC6w 2024 "t" =
      ⟨((yearMonths 2024).map (fun m => monthItemsTotal docC6w m)).sum,
       ((yearMonths 2024).map (fun m => monthSalesTotal docC6w m "t")).sum,
       ((yearMonths 2024).map (fun m => monthSalesProfit docC6w m "t")).sum,
       ((yearMonths 2024).map (fun m => monthItemsTotal docC6w m + monthSalesTotal docC6w m "t")).sum⟩ :=
  claim_C6_amended docC6w 2024 "t" (fun _ _ _ hsn => Option.noConfusion hsn)

end Accounting
